import Mathlib

/-!
Verification of the group-partitioning core of the bungolsa-team application
(`src/App.tsx` and the two unnamed variant source files).

The TypeScript source is shallowly embedded: pure functions become Lean
functions, JS numbers used as ratings become `Int` (and `ℚ` for averages),
and the process-wide random `shuffle` becomes an explicit parameter `sh`
about which theorems assume only that it permutes its input
(`shuffle` in the source returns the input re-sorted by independent random
keys, i.e. some permutation of it).  The `while` loops of the source are
embedded as fuel recursion with fuel at least the length of the remaining
list, which makes every definition kernel-computable; the fuel is provably
never exhausted on the inputs the source can reach.
-/

namespace Bungolsa

/-- Gender of a participant, from the variant source with gender support
(`"M" | "F" | "N"`). -/
inductive Gender where
  | M
  | F
  | N
deriving DecidableEq, Repr

/-- The `Player` record of the source: `{ id: number; name: string;
handicap?: number; gender: Gender }`.  The two gender-free source variants
simply never read `gender`. -/
structure Player where
  id : Nat
  name : String
  handicap : Option Int
  gender : Gender
deriving DecidableEq, Repr

/-- `type Team = Player[]`. -/
abbrev Team := List Player

/-- `Math.ceil(n / k)` on the natural numbers the source feeds it
(used with `k ≥ 1`). -/
def ceilDiv (n k : Nat) : Nat := (n + k - 1) / k

/-- `TEAM_NAME_PRESETS`: the curated pool of ten theme names. -/
def TEAM_NAME_PRESETS : List String :=
  ["이글방", "버디방", "알바트로스방", "드로우방", "페이드방",
   "롱아이언방", "벙커탈출방", "티샷신방", "온그린방", "원온도전방"]

/-- The fallback label `` `방/팀 ${i + 1}` `` used when the name pool is
exhausted (0-based index `i`, 1-based label). -/
def fallbackName (i : Nat) : String := "방/팀 " ++ toString (i + 1)

/-- `generateTeamNames(count)`: shuffle the presets, take entry `i` when it
exists, otherwise the fallback label.  The source tests `shuffled[i] ||`,
which for strings falls back exactly when the entry is absent or `""`;
`sh` stands for the random `shuffle`. -/
def generateTeamNames (sh : List String → List String) (count : Nat) : List String :=
  let shuffled := sh TEAM_NAME_PRESETS
  (List.range count).map fun i =>
    let v := shuffled.getD i ""
    if v = "" then fallbackName i else v

/-- The slicing loop of `makeRandomTeams`:
`for (i = 0; i < len; i += teamSize) teams.push(shuffled.slice(i, i + teamSize))`.
Fuel recursion; with `k ≥ 1` the fuel `l.length` is never exhausted
(with `k = 0` the source loop never terminates). -/
def chunkGo (k : Nat) : Nat → List Player → List Team
  | _, [] => []
  | 0, l => [l]
  | fuel + 1, l => l.take k :: chunkGo k fuel (l.drop k)

/-- `makeRandomTeams(players, teamSize)`: shuffle, then slice into
consecutive chunks of `teamSize`. -/
def makeRandomTeams (sh : List Player → List Player) (players : List Player)
    (teamSize : Nat) : List Team :=
  chunkGo teamSize (sh players).length (sh players)

/-- The sort key of `makeBalancedTeams`: `a.handicap ?? 999`. -/
def handicapKey (p : Player) : Int := p.handicap.getD 999

/-- The comparator `(a, b) => (a.handicap ?? 999) - (b.handicap ?? 999)`
orders players by ascending `handicapKey`. -/
def handLe (a b : Player) : Prop := handicapKey a ≤ handicapKey b

instance : DecidableRel handLe := fun a b =>
  inferInstanceAs (Decidable (handicapKey a ≤ handicapKey b))

instance : IsTotal Player handLe := ⟨fun a b => le_total (handicapKey a) (handicapKey b)⟩

instance : IsTrans Player handLe := ⟨fun _ _ _ => le_trans⟩

/-- `[...players].sort((a, b) => (a.handicap ?? 999) - (b.handicap ?? 999))`.
`Array.prototype.sort` is the stable sort by the comparator (ES2019), which
on a total preorder is insertion sort. -/
def sortByHandicap (players : List Player) : List Player :=
  players.insertionSort handLe

/-- `teams[i].push(p)`: append `p` to team `i`, leaving the others as they
are (the source only calls it with `i` in range). -/
def pushAt (teams : List Team) (i : Nat) (p : Player) : List Team :=
  teams.set i (teams.getD i [] ++ [p])

/-- One forward pass of the snake loop:
`for (t = 0; t < numTeams && index < len; t++) teams[t].push(sorted[index++])`.
Returns the updated teams and the players not yet placed. -/
def passF : List Team → List Player → List Team × List Player
  | [], rest => ([], rest)
  | t :: ts, [] => (t :: ts, [])
  | t :: ts, p :: ps =>
    let r := passF ts ps
    ((t ++ [p]) :: r.1, r.2)

/-- One backward pass of the snake loop:
`for (t = numTeams - 1; t >= 0 && index < len; t--) teams[t].push(sorted[index++])`,
i.e. a forward pass over the reversed team list. -/
def passB (teams : List Team) (rest : List Player) : List Team × List Player :=
  let r := passF teams.reverse rest
  (r.1.reverse, r.2)

/-- The snake-distribution `while (index < sorted.length)` loop of
`makeBalancedTeams`, alternating a forward and a backward pass.  Fuel
recursion; fuel `rest.length` is never exhausted when at least one team
exists (with zero teams and a non-empty `rest` the source loop never
terminates, which is unreachable from `makeBalancedTeams`). -/
def snakeGo : Nat → List Team → List Player → Bool → List Team
  | _, teams, [], _ => teams
  | 0, teams, _ :: _, _ => teams
  | fuel + 1, teams, p :: ps, dir =>
    let r := if dir then passF teams (p :: ps) else passB teams (p :: ps)
    snakeGo fuel r.1 r.2 (!dir)

/-- The body shared by the two `makeBalancedTeams` variants, after
`numTeams` has been computed: sort by handicap, create `numTeams` empty
teams, distribute in snake order. -/
def makeBalancedTeamsCore (players : List Player) (numTeams : Nat) : List Team :=
  let sorted := sortByHandicap players
  snakeGo sorted.length (List.replicate numTeams []) sorted true

/-- `makeBalancedTeams` of `App.tsx` and of the first unnamed variant:
`numTeams = Math.ceil(players.length / teamSize)`. -/
def makeBalancedTeams (players : List Player) (teamSize : Nat) : List Team :=
  makeBalancedTeamsCore players (ceilDiv players.length teamSize)

/-- `makeBalancedTeams` of the gendered variant:
`numTeams = Math.ceil(players.length / teamSize) || 1`. -/
def makeBalancedTeamsG (players : List Player) (teamSize : Nat) : List Team :=
  let c := ceilDiv players.length teamSize
  makeBalancedTeamsCore players (if c = 0 then 1 else c)

/-- `assignGroup` of `makeRandomTeamsWithGender`: push the bucket's members
one by one into `teams[idx]`, advancing `idx = (idx + 1) % numTeams`. -/
def assignGroup (numTeams : Nat) : List Team → Nat → List Player → List Team
  | teams, _, [] => teams
  | teams, idx, p :: ps =>
    assignGroup numTeams (pushAt teams idx p) ((idx + 1) % numTeams) ps

/-- `makeRandomTeamsWithGender(players, teamSize)`: shuffle the three
gender buckets independently, create
`numTeams = Math.ceil(total / teamSize) || 1` empty teams, then assign the
buckets round-robin, males first, then females, then neutral, each bucket
restarting at team 0. -/
def makeRandomTeamsWithGender (sh : List Player → List Player)
    (players : List Player) (teamSize : Nat) : List Team :=
  let males := sh (players.filter fun p => decide (p.gender = Gender.M))
  let females := sh (players.filter fun p => decide (p.gender = Gender.F))
  let neutral := sh (players.filter fun p => decide (p.gender = Gender.N))
  let c := ceilDiv players.length teamSize
  let numTeams := if c = 0 then 1 else c
  let t1 := assignGroup numTeams (List.replicate numTeams []) 0 males
  let t2 := assignGroup numTeams t1 0 females
  assignGroup numTeams t2 0 neutral

/-- `calcAverageHandicap(team)`: collect the present handicaps; `null` when
none is present, otherwise their sum divided by their number (JS numbers
are embedded as exact rationals). -/
def calcAverageHandicap (team : Team) : Option ℚ :=
  let hs := team.filterMap Player.handicap
  if hs = [] then none
  else some ((hs.sum : ℚ) / (hs.length : ℚ))

/-- The id `addPlayer` gives a new participant:
`players.length ? players[players.length - 1].id + 1 : 1`. -/
def nextId (players : List Player) : Nat :=
  match players.getLast? with
  | some p => p.id + 1
  | none => 1

/-- A roster-editing action of the UI: `addPlayer` (with the submitted
name, parsed handicap and chosen gender) or `removePlayer(id)`. -/
inductive RosterOp where
  | add (name : String) (handicap : Option Int) (gender : Gender)
  | remove (id : Nat)

/-- One roster update: `addPlayer` appends `{ id: nextId, ... }`,
`removePlayer` keeps the players whose id differs. -/
def applyOp (players : List Player) : RosterOp → List Player
  | .add n h g => players ++ [⟨nextId players, n, h, g⟩]
  | .remove i => players.filter fun p => decide (p.id ≠ i)

/-- The roster after a sequence of editing actions, starting from the
empty roster of the two unnamed variants. -/
def runOps (ops : List RosterOp) : List Player := ops.foldl applyOp []

/-- The ids handed out by `addPlayer` along a sequence of actions. -/
def assignedIds : List Player → List RosterOp → List Nat
  | _, [] => []
  | ps, .add n h g :: rest => nextId ps :: assignedIds (applyOp ps (.add n h g)) rest
  | ps, .remove i :: rest => assignedIds (applyOp ps (.remove i)) rest

/-! ### The chunking loop of `makeRandomTeams` -/

theorem chunkGo_flatten (k : Nat) : ∀ (fuel : Nat) (l : List Player),
    (chunkGo k fuel l).flatten = l := by
  intro fuel
  induction fuel with
  | zero =>
    intro l
    cases l with
    | nil => rfl
    | cons p ps => simp [chunkGo]
  | succ fuel ih =>
    intro l
    cases l with
    | nil => rfl
    | cons p ps =>
      simp only [chunkGo, List.flatten_cons, ih]
      exact List.take_append_drop k (p :: ps)

/-! ### The forward and backward passes of the snake loop -/

theorem passF_fst_length : ∀ (ts : List Team) (r : List Player),
    (passF ts r).1.length = ts.length := by
  intro ts
  induction ts with
  | nil => intro r; rfl
  | cons t ts ih =>
    intro r
    cases r with
    | nil => rfl
    | cons p ps => simp [passF, ih]

theorem passF_snd_length_le : ∀ (ts : List Team) (r : List Player),
    (passF ts r).2.length ≤ r.length := by
  intro ts
  induction ts with
  | nil => intro r; exact le_refl _
  | cons t ts ih =>
    intro r
    cases r with
    | nil => simp [passF]
    | cons p ps =>
      simp only [passF]
      exact le_trans (ih ps) (Nat.le_succ _)

theorem passF_snd_length_lt (ts : List Team) (r : List Player)
    (hts : ts ≠ []) (hr : r ≠ []) : (passF ts r).2.length < r.length := by
  cases ts with
  | nil => exact absurd rfl hts
  | cons t ts =>
    cases r with
    | nil => exact absurd rfl hr
    | cons p ps =>
      simp only [passF]
      exact Nat.lt_succ_of_le (passF_snd_length_le ts ps)

theorem passF_flatten_perm : ∀ (ts : List Team) (r : List Player),
    ((passF ts r).1.flatten ++ (passF ts r).2).Perm (ts.flatten ++ r) := by
  intro ts
  induction ts with
  | nil => intro r; simp [passF]
  | cons t ts ih =>
    intro r
    cases r with
    | nil => simp [passF]
    | cons p ps =>
      simp only [passF, List.flatten_cons, List.append_assoc]
      refine List.Perm.append_left t ?_
      have h1 : (p :: ((passF ts ps).1.flatten ++ (passF ts ps).2)).Perm
          (p :: (ts.flatten ++ ps)) := (ih ps).cons p
      exact h1.trans List.perm_middle.symm

theorem passF_mem_full : ∀ (ts : List Team) (r : List Player) (k : Nat),
    ts.length ≤ r.length → (∀ t ∈ ts, t.length = k) →
    ∀ t ∈ (passF ts r).1, t.length = k + 1 := by
  intro ts
  induction ts with
  | nil => intro r k _ _ t ht; simp [passF] at ht
  | cons t ts ih =>
    intro r k hlen hk u hu
    cases r with
    | nil => simp at hlen
    | cons p ps =>
      simp only [passF, List.mem_cons] at hu
      rcases hu with hu | hu
      · subst hu
        simp [hk t (List.mem_cons_self t ts)]
      · exact ih ps k (Nat.le_of_succ_le_succ (by simpa using hlen))
          (fun v hv => hk v (List.mem_cons_of_mem t hv)) u hu

theorem passF_mem_mixed : ∀ (ts : List Team) (r : List Player) (k : Nat),
    (∀ t ∈ ts, t.length = k) →
    ∀ t ∈ (passF ts r).1, t.length = k ∨ t.length = k + 1 := by
  intro ts
  induction ts with
  | nil => intro r k _ t ht; simp [passF] at ht
  | cons t ts ih =>
    intro r k hk u hu
    cases r with
    | nil =>
      simp only [passF] at hu
      exact Or.inl (hk u hu)
    | cons p ps =>
      simp only [passF, List.mem_cons] at hu
      rcases hu with hu | hu
      · subst hu
        exact Or.inr (by simp [hk t (List.mem_cons_self t ts)])
      · exact ih ps k (fun v hv => hk v (List.mem_cons_of_mem t hv)) u hu

theorem passF_snd_eq_nil : ∀ (ts : List Team) (r : List Player),
    r.length ≤ ts.length → (passF ts r).2 = [] := by
  intro ts
  induction ts with
  | nil =>
    intro r hr
    have : r = [] := List.length_eq_zero.mp (Nat.le_zero.mp hr)
    subst this; rfl
  | cons t ts ih =>
    intro r hr
    cases r with
    | nil => rfl
    | cons p ps =>
      simp only [passF]
      exact ih ps (Nat.le_of_succ_le_succ (by simpa using hr))

theorem passB_fst_length (ts : List Team) (r : List Player) :
    (passB ts r).1.length = ts.length := by
  simp [passB, passF_fst_length]

theorem passB_snd_length_lt (ts : List Team) (r : List Player)
    (hts : ts ≠ []) (hr : r ≠ []) : (passB ts r).2.length < r.length := by
  simp only [passB]
  exact passF_snd_length_lt ts.reverse r (by simpa using hts) hr

theorem passB_flatten_perm (ts : List Team) (r : List Player) :
    ((passB ts r).1.flatten ++ (passB ts r).2).Perm (ts.flatten ++ r) := by
  simp only [passB]
  have h1 : ((passF ts.reverse r).1.reverse.flatten ++ (passF ts.reverse r).2).Perm
      ((passF ts.reverse r).1.flatten ++ (passF ts.reverse r).2) :=
    List.Perm.append ((List.reverse_perm _).flatten) (List.Perm.refl _)
  have h2 : (ts.reverse.flatten ++ r).Perm (ts.flatten ++ r) :=
    List.Perm.append ((List.reverse_perm ts).flatten) (List.Perm.refl _)
  exact (h1.trans (passF_flatten_perm ts.reverse r)).trans h2

theorem passB_mem_full (ts : List Team) (r : List Player) (k : Nat)
    (hlen : ts.length ≤ r.length) (hk : ∀ t ∈ ts, t.length = k) :
    ∀ t ∈ (passB ts r).1, t.length = k + 1 := by
  intro u hu
  simp only [passB, List.mem_reverse] at hu
  exact passF_mem_full ts.reverse r k (by simpa using hlen)
    (fun v hv => hk v (List.mem_reverse.mp hv)) u hu

theorem passB_mem_mixed (ts : List Team) (r : List Player) (k : Nat)
    (hk : ∀ t ∈ ts, t.length = k) :
    ∀ t ∈ (passB ts r).1, t.length = k ∨ t.length = k + 1 := by
  intro u hu
  simp only [passB, List.mem_reverse] at hu
  exact passF_mem_mixed ts.reverse r k (fun v hv => hk v (List.mem_reverse.mp hv)) u hu

theorem passB_snd_eq_nil (ts : List Team) (r : List Player)
    (hr : r.length ≤ ts.length) : (passB ts r).2 = [] := by
  simp only [passB]
  exact passF_snd_eq_nil ts.reverse r (by simpa using hr)

/-! ### The snake loop -/

theorem snakeGo_nil : ∀ (fuel : Nat) (r : List Player) (dir : Bool),
    snakeGo fuel [] r dir = [] := by
  intro fuel
  induction fuel with
  | zero =>
    intro r dir
    cases r with
    | nil => rfl
    | cons p ps => rfl
  | succ fuel ih =>
    intro r dir
    cases r with
    | nil => rfl
    | cons p ps =>
      cases dir <;> simp [snakeGo, passF, passB, ih]

theorem snakeGo_flatten_perm : ∀ (fuel : Nat) (teams : List Team)
    (rest : List Player) (dir : Bool), rest.length ≤ fuel → teams ≠ [] →
    (snakeGo fuel teams rest dir).flatten.Perm (teams.flatten ++ rest) := by
  intro fuel
  induction fuel with
  | zero =>
    intro teams rest dir hfuel _
    have : rest = [] := List.length_eq_zero.mp (Nat.le_zero.mp hfuel)
    subst this
    simp [snakeGo]
  | succ fuel ih =>
    intro teams rest dir hfuel hteams
    cases rest with
    | nil => simp [snakeGo]
    | cons p ps =>
      cases dir
      · have hlt := passB_snd_length_lt teams (p :: ps) hteams (by simp)
        have hne : (passB teams (p :: ps)).1 ≠ [] := by
          have := passB_fst_length teams (p :: ps)
          intro hcon
          rw [hcon] at this
          exact hteams (List.length_eq_zero.mp this.symm)
        have hstep : snakeGo (fuel + 1) teams (p :: ps) false
            = snakeGo fuel (passB teams (p :: ps)).1 (passB teams (p :: ps)).2 true := by
          simp [snakeGo]
        rw [hstep]
        exact (ih _ _ _ (Nat.le_of_lt_succ (Nat.lt_of_lt_of_le hlt hfuel)) hne).trans
          (passB_flatten_perm teams (p :: ps))
      · have hlt := passF_snd_length_lt teams (p :: ps) hteams (by simp)
        have hne : (passF teams (p :: ps)).1 ≠ [] := by
          have := passF_fst_length teams (p :: ps)
          intro hcon
          rw [hcon] at this
          exact hteams (List.length_eq_zero.mp this.symm)
        have hstep : snakeGo (fuel + 1) teams (p :: ps) true
            = snakeGo fuel (passF teams (p :: ps)).1 (passF teams (p :: ps)).2 false := by
          simp [snakeGo]
        rw [hstep]
        exact (ih _ _ _ (Nat.le_of_lt_succ (Nat.lt_of_lt_of_le hlt hfuel)) hne).trans
          (passF_flatten_perm teams (p :: ps))

/-- After the snake loop, starting from teams of one common size, every
team's size is `m` or `m + 1` for a single `m`: each full pass grows every
team by one, and the last, partial pass grows a sub-collection by one. -/
theorem snakeGo_sizes : ∀ (fuel : Nat) (teams : List Team)
    (rest : List Player) (dir : Bool) (k : Nat), rest.length ≤ fuel →
    (∀ t ∈ teams, t.length = k) →
    ∃ m, ∀ t ∈ snakeGo fuel teams rest dir, t.length = m ∨ t.length = m + 1 := by
  intro fuel
  induction fuel with
  | zero =>
    intro teams rest dir k hfuel hk
    have : rest = [] := List.length_eq_zero.mp (Nat.le_zero.mp hfuel)
    subst this
    exact ⟨k, fun t ht => Or.inl (hk t ht)⟩
  | succ fuel ih =>
    intro teams rest dir k hfuel hk
    cases rest with
    | nil => exact ⟨k, fun t ht => Or.inl (hk t ht)⟩
    | cons p ps =>
      by_cases hteams : teams = []
      · subst hteams
        rw [snakeGo_nil]
        exact ⟨k, by simp⟩
      rcases le_or_lt teams.length (p :: ps).length with hfull | hpart
      · cases dir
        · have hstep : snakeGo (fuel + 1) teams (p :: ps) false
              = snakeGo fuel (passB teams (p :: ps)).1 (passB teams (p :: ps)).2 true := by
            simp [snakeGo]
          rw [hstep]
          have hlt := passB_snd_length_lt teams (p :: ps) hteams (by simp)
          exact ih _ _ _ (k + 1) (Nat.le_of_lt_succ (Nat.lt_of_lt_of_le hlt hfuel))
            (passB_mem_full teams (p :: ps) k hfull hk)
        · have hstep : snakeGo (fuel + 1) teams (p :: ps) true
              = snakeGo fuel (passF teams (p :: ps)).1 (passF teams (p :: ps)).2 false := by
            simp [snakeGo]
          rw [hstep]
          have hlt := passF_snd_length_lt teams (p :: ps) hteams (by simp)
          exact ih _ _ _ (k + 1) (Nat.le_of_lt_succ (Nat.lt_of_lt_of_le hlt hfuel))
            (passF_mem_full teams (p :: ps) k hfull hk)
      · cases dir
        · have hsnd : (passB teams (p :: ps)).2 = [] :=
            passB_snd_eq_nil teams (p :: ps) (le_of_lt hpart)
          have hstep : snakeGo (fuel + 1) teams (p :: ps) false
              = snakeGo fuel (passB teams (p :: ps)).1 (passB teams (p :: ps)).2 true := by
            simp [snakeGo]
          rw [hstep, hsnd]
          refine ⟨k, ?_⟩
          intro t ht
          cases fuel with
          | zero => exact passB_mem_mixed teams (p :: ps) k hk t ht
          | succ fuel => exact passB_mem_mixed teams (p :: ps) k hk t ht
        · have hsnd : (passF teams (p :: ps)).2 = [] :=
            passF_snd_eq_nil teams (p :: ps) (le_of_lt hpart)
          have hstep : snakeGo (fuel + 1) teams (p :: ps) true
              = snakeGo fuel (passF teams (p :: ps)).1 (passF teams (p :: ps)).2 false := by
            simp [snakeGo]
          rw [hstep, hsnd]
          refine ⟨k, ?_⟩
          intro t ht
          cases fuel with
          | zero => exact passF_mem_mixed teams (p :: ps) k hk t ht
          | succ fuel => exact passF_mem_mixed teams (p :: ps) k hk t ht

/-! ### The balanced sort: permutation, order, and stability -/

theorem sortByHandicap_perm (players : List Player) :
    (sortByHandicap players).Perm players :=
  List.perm_insertionSort handLe players

theorem sortByHandicap_sorted (players : List Player) :
    List.Sorted handLe (sortByHandicap players) :=
  List.sorted_insertionSort handLe players

/-- Inserting a player whose key is `v` puts it in front of every
already-present player with key `v` (and behind only smaller keys). -/
theorem orderedInsert_filter_key_eq (v : Int) (a : Player)
    (ha : handicapKey a = v) : ∀ l : List Player,
    (l.orderedInsert handLe a).filter (fun p => decide (handicapKey p = v))
      = a :: l.filter (fun p => decide (handicapKey p = v)) := by
  intro l
  induction l with
  | nil => simp [List.orderedInsert, ha]
  | cons b l ih =>
    by_cases hle : handLe a b
    · simp [List.orderedInsert, hle, ha]
    · have hbv : ¬ handicapKey b = v := by
        intro hcon
        exact hle (by simp [handLe, ha, hcon])
      simp [List.orderedInsert, hle, List.filter_cons, hbv, ih]

/-- Inserting a player whose key is not `v` does not disturb the key-`v`
players. -/
theorem orderedInsert_filter_key_ne (v : Int) (a : Player)
    (ha : ¬ handicapKey a = v) : ∀ l : List Player,
    (l.orderedInsert handLe a).filter (fun p => decide (handicapKey p = v))
      = l.filter (fun p => decide (handicapKey p = v)) := by
  intro l
  induction l with
  | nil => simp [List.orderedInsert, ha]
  | cons b l ih =>
    by_cases hle : handLe a b
    · simp [List.orderedInsert, hle, List.filter_cons, ha]
    · simp [List.orderedInsert, hle, List.filter_cons, ih]

/-- The sort is stable on key classes: the players of any one key keep
their relative input order. -/
theorem sortByHandicap_filter_key (v : Int) : ∀ players : List Player,
    (sortByHandicap players).filter (fun p => decide (handicapKey p = v))
      = players.filter (fun p => decide (handicapKey p = v)) := by
  intro players
  induction players with
  | nil => rfl
  | cons a l ih =>
    unfold sortByHandicap at ih
    show ((List.insertionSort handLe l).orderedInsert handLe a).filter _ = _
    by_cases ha : handicapKey a = v
    · rw [orderedInsert_filter_key_eq v a ha]
      simp [List.filter_cons, ha, ih]
    · rw [orderedInsert_filter_key_ne v a ha]
      simp [List.filter_cons, ha, ih]

/-! ### Round-robin assignment of the gendered strategy -/

theorem pushAt_cons_zero (t : Team) (ts : List Team) (p : Player) :
    pushAt (t :: ts) 0 p = (t ++ [p]) :: ts := rfl

theorem pushAt_cons_succ (t : Team) (ts : List Team) (i : Nat) (p : Player) :
    pushAt (t :: ts) (i + 1) p = t :: pushAt ts i p := rfl

theorem pushAt_length (ts : List Team) (i : Nat) (p : Player) :
    (pushAt ts i p).length = ts.length := List.length_set ts i _

theorem pushAt_flatten_perm : ∀ (ts : List Team) (i : Nat) (p : Player),
    i < ts.length → (pushAt ts i p).flatten.Perm (ts.flatten ++ [p]) := by
  intro ts
  induction ts with
  | nil => intro i p hi; simp at hi
  | cons t ts ih =>
    intro i p hi
    cases i with
    | zero =>
      rw [pushAt_cons_zero]
      simp only [List.flatten_cons, List.append_assoc]
      exact List.Perm.append_left t (List.perm_append_comm)
    | succ i =>
      rw [pushAt_cons_succ]
      simp only [List.flatten_cons, List.append_assoc]
      exact List.Perm.append_left t (ih i p (by simpa using hi))

theorem pushAt_getD_self (ts : List Team) (i : Nat) (p : Player)
    (hi : i < ts.length) : (pushAt ts i p).getD i [] = ts.getD i [] ++ [p] := by
  simp [pushAt, List.getD_eq_getElem?_getD, List.getElem?_set_self hi]

theorem pushAt_getD_ne (ts : List Team) (i j : Nat) (p : Player)
    (hij : i ≠ j) : (pushAt ts i p).getD j [] = ts.getD j [] := by
  simp [pushAt, List.getD_eq_getElem?_getD, List.getElem?_set_ne hij]

theorem assignGroup_length (n : Nat) : ∀ (g : List Player) (ts : List Team) (idx : Nat),
    (assignGroup n ts idx g).length = ts.length := by
  intro g
  induction g with
  | nil => intro ts idx; rfl
  | cons p ps ih =>
    intro ts idx
    simp only [assignGroup, ih, pushAt_length]

theorem assignGroup_flatten_perm (n : Nat) : ∀ (g : List Player) (ts : List Team)
    (idx : Nat), ts.length = n → idx < n →
    (assignGroup n ts idx g).flatten.Perm (ts.flatten ++ g) := by
  intro g
  induction g with
  | nil => intro ts idx _ _; simp [assignGroup]
  | cons p ps ih =>
    intro ts idx hn hidx
    have hpos : 0 < n := Nat.lt_of_le_of_lt (Nat.zero_le idx) hidx
    have h1 := ih (pushAt ts idx p) ((idx + 1) % n)
      (by rw [pushAt_length, hn]) (Nat.mod_lt _ hpos)
    have h2 : ((pushAt ts idx p).flatten ++ ps).Perm ((ts.flatten ++ [p]) ++ ps) :=
      List.Perm.append (pushAt_flatten_perm ts idx p (hn ▸ hidx)) (List.Perm.refl ps)
    have h3 : (ts.flatten ++ [p]) ++ ps = ts.flatten ++ p :: ps := by
      simp [List.append_assoc]
    exact (h1.trans h2).trans (h3 ▸ List.Perm.refl _)

theorem assignGroup_getD_mono (n : Nat) : ∀ (g : List Player) (ts : List Team)
    (idx : Nat) (j : Nat) (q : Player), ts.length = n → idx < n →
    q ∈ ts.getD j [] → q ∈ (assignGroup n ts idx g).getD j [] := by
  intro g
  induction g with
  | nil => intro ts idx j q _ _ hq; exact hq
  | cons p ps ih =>
    intro ts idx j q hn hidx hq
    have hpos : 0 < n := Nat.lt_of_le_of_lt (Nat.zero_le idx) hidx
    refine ih (pushAt ts idx p) ((idx + 1) % n) j q
      (by rw [pushAt_length, hn]) (Nat.mod_lt _ hpos) ?_
    by_cases hij : idx = j
    · subst hij
      rw [pushAt_getD_self ts idx p (hn ▸ hidx)]
      exact List.mem_append_left _ hq
    · rw [pushAt_getD_ne ts idx j p hij]
      exact hq

/-- The `k`-th member of a bucket assigned round-robin from cursor `idx`
lands in team `(idx + k) % n`. -/
theorem assignGroup_get_mem (n : Nat) : ∀ (g : List Player) (ts : List Team)
    (idx : Nat) (k : Nat) (p : Player), ts.length = n → idx < n →
    g[k]? = some p → p ∈ (assignGroup n ts idx g).getD ((idx + k) % n) [] := by
  intro g
  induction g with
  | nil => intro ts idx k p _ _ hk; simp at hk
  | cons q qs ih =>
    intro ts idx k p hn hidx hk
    have hpos : 0 < n := Nat.lt_of_le_of_lt (Nat.zero_le idx) hidx
    cases k with
    | zero =>
      have hq : q = p := by simpa using hk
      subst hq
      have hmem : q ∈ (pushAt ts idx q).getD idx [] := by
        rw [pushAt_getD_self ts idx q (hn ▸ hidx)]
        exact List.mem_append_right _ (List.mem_singleton.mpr rfl)
      have := assignGroup_getD_mono n qs (pushAt ts idx q) ((idx + 1) % n) idx q
        (by rw [pushAt_length, hn]) (Nat.mod_lt _ hpos) hmem
      simpa [Nat.mod_eq_of_lt hidx] using this
    | succ k =>
      have hk' : qs[k]? = some p := by simpa using hk
      have := ih (pushAt ts idx q) ((idx + 1) % n) k p
        (by rw [pushAt_length, hn]) (Nat.mod_lt _ hpos) hk'
      have harith : ((idx + 1) % n + k) % n = (idx + (k + 1)) % n := by
        rw [Nat.mod_add_mod]
        congr 1
        omega
      simpa [assignGroup, harith] using this

/-- Splitting a roster into its three gender buckets loses nobody:
the buckets concatenated are a permutation of the roster. -/
theorem filter_gender_perm : ∀ l : List Player,
    ((l.filter fun p => decide (p.gender = Gender.M))
      ++ (l.filter fun p => decide (p.gender = Gender.F))
      ++ (l.filter fun p => decide (p.gender = Gender.N))).Perm l := by
  intro l
  induction l with
  | nil => simp
  | cons a l ih =>
    cases hg : a.gender
    · simp only [List.filter_cons, hg]
      simp only [decide_eq_true_eq, reduceCtorEq, if_false, if_true, List.cons_append]
      exact ih.cons a
    · simp only [List.filter_cons, hg]
      simp only [decide_eq_true_eq, reduceCtorEq, if_false, if_true, List.cons_append]
      rw [List.append_assoc, List.cons_append]
      refine List.perm_middle.trans (List.Perm.cons a ?_)
      rw [← List.append_assoc]
      exact ih
    · simp only [List.filter_cons, hg]
      simp only [decide_eq_true_eq, reduceCtorEq, if_false, if_true, List.cons_append]
      exact List.perm_middle.trans (List.Perm.cons a ih)

/-! ### Roster editing: id discipline -/

theorem mem_id_lt_nextId : ∀ ps : List Player,
    List.Pairwise (fun a b => a.id < b.id) ps → ∀ p ∈ ps, p.id < nextId ps := by
  intro ps
  induction ps with
  | nil => intro _ p hp; simp at hp
  | cons q qs ih =>
    intro hpair p hp
    cases qs with
    | nil =>
      have : p = q := by simpa using hp
      subst this
      simp [nextId]
    | cons r rs =>
      have hnext : nextId (q :: r :: rs) = nextId (r :: rs) := by
        simp [nextId, List.getLast?_cons_cons]
      rw [hnext]
      rcases List.mem_cons.mp hp with hpq | hp'
      · subst hpq
        have hqr : p.id < r.id := (List.pairwise_cons.mp hpair).1 r (by simp)
        have hr : r.id < nextId (r :: rs) :=
          ih (List.pairwise_cons.mp hpair).2 r (by simp)
        exact Nat.lt_trans hqr hr
      · exact ih (List.pairwise_cons.mp hpair).2 p hp'

theorem applyOp_pairwise (ps : List Player) (op : RosterOp)
    (h : List.Pairwise (fun a b => a.id < b.id) ps) :
    List.Pairwise (fun a b => a.id < b.id) (applyOp ps op) := by
  cases op with
  | add n hc g =>
    refine List.pairwise_append.mpr ⟨h, List.pairwise_singleton _ _, ?_⟩
    intro a ha b hb
    have hb' : b = ⟨nextId ps, n, hc, g⟩ := by simpa using hb
    subst hb'
    exact mem_id_lt_nextId ps h a ha
  | remove i => exact h.filter _

/-- Along every sequence of roster edits from the empty roster, the ids in
the roster are strictly increasing front to back (hence pairwise
distinct). -/
theorem runOps_pairwise_id_lt (ops : List RosterOp) :
    List.Pairwise (fun a b => a.id < b.id) (runOps ops) := by
  have hgen : ∀ (os : List RosterOp) (ps : List Player),
      List.Pairwise (fun a b => a.id < b.id) ps →
      List.Pairwise (fun a b => a.id < b.id) (os.foldl applyOp ps) := by
    intro os
    induction os with
    | nil => intro ps h; exact h
    | cons o os ih =>
      intro ps h
      exact ih (applyOp ps o) (applyOp_pairwise ps o h)
  exact hgen ops [] List.Pairwise.nil

/-! ### Strategy-level consequences -/

theorem makeRandomTeams_flatten (sh : List Player → List Player)
    (players : List Player) (teamSize : Nat) :
    (makeRandomTeams sh players teamSize).flatten = sh players :=
  chunkGo_flatten teamSize _ _

/-- `Math.ceil(0 / k) = 0` for every `k` (also under the Nat-division
embedding of `k = 0`). -/
theorem ceilDiv_zero_left (k : Nat) : ceilDiv 0 k = 0 := by
  cases k with
  | zero => rfl
  | succ k => exact Nat.div_eq_of_lt (by omega)

theorem ceilDiv_pos (n k : Nat) (hn : n ≠ 0) (hk : 1 ≤ k) :
    0 < ceilDiv n k := by
  have := (Nat.one_le_div_iff (a := n + k - 1) hk).mpr (by omega)
  simpa [ceilDiv] using this

/-- The `|| 1` of the gendered variants, in the `max` form of the spec. -/
theorem ite_zero_one_eq_max (c : Nat) : (if c = 0 then 1 else c) = max 1 c := by
  split <;> omega

theorem makeBalancedTeamsCore_flatten_perm (players : List Player) (numTeams : Nat)
    (h : 0 < numTeams ∨ players = []) :
    (makeBalancedTeamsCore players numTeams).flatten.Perm players := by
  rcases h with hpos | hnil
  · have hne : List.replicate numTeams ([] : Team) ≠ [] := by
      intro hcon
      have := congrArg List.length hcon
      simp at this
      omega
    have h1 := snakeGo_flatten_perm (sortByHandicap players).length
      (List.replicate numTeams []) (sortByHandicap players) true (le_refl _) hne
    have h2 : (List.replicate numTeams ([] : Team)).flatten ++ sortByHandicap players
        = sortByHandicap players := by
      simp [List.flatten_replicate_nil]
    exact (h2 ▸ h1 : _).trans (sortByHandicap_perm players)
  · subst hnil
    show (snakeGo _ _ (sortByHandicap []) _).flatten.Perm []
    simp [sortByHandicap, List.insertionSort, snakeGo, List.flatten_replicate_nil]

theorem makeBalancedTeams_flatten_perm (players : List Player) (teamSize : Nat)
    (hts : 1 ≤ teamSize) :
    (makeBalancedTeams players teamSize).flatten.Perm players := by
  by_cases hp : players = []
  · exact makeBalancedTeamsCore_flatten_perm players _ (Or.inr hp)
  · refine makeBalancedTeamsCore_flatten_perm players _ (Or.inl ?_)
    exact ceilDiv_pos players.length teamSize (by simpa using hp) hts

theorem makeRandomTeamsWithGender_flatten_perm (sh : List Player → List Player)
    (hsh : ∀ l, (sh l).Perm l) (players : List Player) (teamSize : Nat) :
    (makeRandomTeamsWithGender sh players teamSize).flatten.Perm players := by
  set males := sh (players.filter fun p => decide (p.gender = Gender.M)) with hm
  set females := sh (players.filter fun p => decide (p.gender = Gender.F)) with hf
  set neutral := sh (players.filter fun p => decide (p.gender = Gender.N)) with hn
  set c := ceilDiv players.length teamSize with hc
  set n := if c = 0 then 1 else c with hdefn
  have hpos : 0 < n := by rw [hdefn]; split <;> omega
  set t0 := List.replicate n ([] : Team) with ht0
  set t1 := assignGroup n t0 0 males with ht1
  set t2 := assignGroup n t1 0 females with ht2
  have hl0 : t0.length = n := List.length_replicate n []
  have hl1 : t1.length = n := by rw [ht1, assignGroup_length, hl0]
  have hl2 : t2.length = n := by rw [ht2, assignGroup_length, hl1]
  have hres : makeRandomTeamsWithGender sh players teamSize
      = assignGroup n t2 0 neutral := rfl
  rw [hres]
  have p3 := assignGroup_flatten_perm n neutral t2 0 hl2 hpos
  have p2 := assignGroup_flatten_perm n females t1 0 hl1 hpos
  have p1 := assignGroup_flatten_perm n males t0 0 hl0 hpos
  have h0 : t0.flatten = [] := List.flatten_replicate_nil
  have key : ((males ++ females) ++ neutral).Perm players := by
    have hM := hsh (players.filter fun p => decide (p.gender = Gender.M))
    have hF := hsh (players.filter fun p => decide (p.gender = Gender.F))
    have hN := hsh (players.filter fun p => decide (p.gender = Gender.N))
    exact (List.Perm.append (List.Perm.append hM hF) hN).trans (filter_gender_perm players)
  have step1 : t1.flatten.Perm males := by
    have := p1
    rw [h0] at this
    simpa using this
  have step2 : t2.flatten.Perm (males ++ females) :=
    p2.trans (List.Perm.append step1 (List.Perm.refl females))
  exact (p3.trans (List.Perm.append step2 (List.Perm.refl neutral))).trans key

/-! ### Example rosters for witnesses and counterexamples -/

/-- A three-player roster covering all genders and a missing rating. -/
def sampleRoster : List Player :=
  [⟨1, "가", some 3, Gender.M⟩, ⟨2, "나", none, Gender.F⟩, ⟨3, "다", some 7, Gender.N⟩]

/-- Four players, enough to leave a short last chunk at `teamSize = 3`. -/
def fourPlayers : List Player :=
  [⟨1, "가", none, Gender.M⟩, ⟨2, "나", none, Gender.M⟩,
   ⟨3, "다", none, Gender.M⟩, ⟨4, "라", none, Gender.M⟩]

/-- Six players with ratings 1..6, the spec's snake-draft example. -/
def sixRated : List Player :=
  [⟨1, "가", some 1, Gender.M⟩, ⟨2, "나", some 2, Gender.M⟩,
   ⟨3, "다", some 3, Gender.M⟩, ⟨4, "라", some 4, Gender.M⟩,
   ⟨5, "마", some 5, Gender.M⟩, ⟨6, "바", some 6, Gender.M⟩]

/-! ### Claim theorems -/

/-- C1: for every roster and every `groupSize ≥ 1`, under each of the three
strategies (uniform-random, gender-stratified, handicap-balanced), the
concatenation of the returned groups is a permutation of the input roster,
so the multiset of participant ids is preserved exactly. -/
theorem C1_partition_preserves_ids (sh : List Player → List Player)
    (hsh : ∀ l, (sh l).Perm l) (players : List Player) (teamSize : Nat)
    (hts : 1 ≤ teamSize) :
    ((makeRandomTeams sh players teamSize).flatten.map Player.id).Perm
      (players.map Player.id)
    ∧ ((makeRandomTeamsWithGender sh players teamSize).flatten.map Player.id).Perm
      (players.map Player.id)
    ∧ ((makeBalancedTeams players teamSize).flatten.map Player.id).Perm
      (players.map Player.id) := by
  refine ⟨?_, ?_, ?_⟩
  · rw [makeRandomTeams_flatten]
    exact (hsh players).map Player.id
  · exact (makeRandomTeamsWithGender_flatten_perm sh hsh players teamSize).map Player.id
  · exact (makeBalancedTeams_flatten_perm players teamSize hts).map Player.id

/-- Witness for C1 at the identity shuffle, `sampleRoster`, `groupSize = 2`. -/
theorem C1_partition_preserves_ids_witness :
    (1 ≤ 2)
    ∧ (((makeRandomTeams id sampleRoster 2).flatten.map Player.id).Perm
        (sampleRoster.map Player.id)
      ∧ ((makeRandomTeamsWithGender id sampleRoster 2).flatten.map Player.id).Perm
        (sampleRoster.map Player.id)
      ∧ ((makeBalancedTeams sampleRoster 2).flatten.map Player.id).Perm
        (sampleRoster.map Player.id)) :=
  ⟨by decide, C1_partition_preserves_ids id (fun l => List.Perm.refl l)
    sampleRoster 2 (by decide)⟩

/-- C2 counterexample: under the uniform-random strategy, four players at
`groupSize = 3` (shuffle drawn as the identity permutation) yield groups of
sizes 3 and 1, so the sizes differ by 2. -/
theorem C2_uniform_random_sizes_cex :
    (makeRandomTeams id fourPlayers 3).map List.length = [3, 1]
    ∧ ¬ (∀ g1 ∈ makeRandomTeams id fourPlayers 3,
        ∀ g2 ∈ makeRandomTeams id fourPlayers 3,
        g1.length ≤ g2.length + 1) := by
  constructor
  · decide
  · decide

/-- C2 amended: the size balance `max - min ≤ 1` holds for the
handicap-balanced strategy (snake distribution); the uniform-random
strategy leaves a short last chunk and the gender-stratified strategy can
stack buckets, so neither obeys the bound. -/
theorem C2_balanced_size_bound (players : List Player) (teamSize : Nat)
    (hts : 1 ≤ teamSize) :
    ∀ g1 ∈ makeBalancedTeams players teamSize,
    ∀ g2 ∈ makeBalancedTeams players teamSize,
      g1.length ≤ g2.length + 1 := by
  have h0 : ∀ t ∈ List.replicate (ceilDiv players.length teamSize) ([] : Team),
      t.length = 0 := by
    intro t ht
    rw [List.eq_of_mem_replicate ht]
    rfl
  obtain ⟨m, hm⟩ := snakeGo_sizes (sortByHandicap players).length
    (List.replicate (ceilDiv players.length teamSize) []) (sortByHandicap players)
    true 0 (le_refl _) h0
  intro g1 h1 g2 h2
  rcases hm g1 h1 with e1 | e1 <;> rcases hm g2 h2 with e2 | e2 <;> omega

/-- Witness for C2's amended bound on `sampleRoster` at `groupSize = 2`. -/
theorem C2_balanced_size_bound_witness :
    (1 ≤ 2)
    ∧ (∀ g1 ∈ makeBalancedTeams sampleRoster 2,
       ∀ g2 ∈ makeBalancedTeams sampleRoster 2, g1.length ≤ g2.length + 1) :=
  ⟨by decide, C2_balanced_size_bound sampleRoster 2 (by decide)⟩

/-- C3: the snake (boustrophedon) distribution of `makeBalancedTeams` on
ratings `[1,2,3,4,5,6]` with `groupSize = 2` produces exactly the groups
`{1,6}, {2,5}, {3,4}` (stated here by ids and by ratings, which coincide). -/
theorem C3_snake_example :
    (makeBalancedTeams sixRated 2).map (fun g => g.map Player.id) = [[1, 6], [2, 5], [3, 4]]
    ∧ (makeBalancedTeams sixRated 2).map (fun g => g.map Player.handicap)
      = [[some 1, some 6], [some 2, some 5], [some 3, some 4]] := by
  constructor
  · decide
  · decide

/-- C4 counterexample: the sort's missing-rating sentinel is the literal
`999`, so a participant rated `1000` sorts after an unrated one: on the
roster `[{id 1, rating 1000}, {id 2, unrated}]` the unrated participant
comes first, refuting "unrated sorts last regardless of the rated
participants' rating values". -/
theorem C4_unrated_sorts_first_cex :
    (sortByHandicap [⟨1, "가", some 1000, Gender.M⟩, ⟨2, "나", none, Gender.M⟩]).map
      Player.id = [2, 1] := by
  decide

/-- C4 amended: missing ratings are treated as the sentinel rank `999`, so
whenever every present rating is below `999`, every unrated participant
sorts after every rated one (once an unrated participant appears in the
sorted list, all later entries are unrated). -/
theorem C4_unrated_last_below_sentinel (players : List Player)
    (hsmall : ∀ p ∈ players, ∀ r : Int, p.handicap = some r → r < 999) :
    ∀ i j : Fin (sortByHandicap players).length, i < j →
      ((sortByHandicap players).get i).handicap = none →
      ((sortByHandicap players).get j).handicap = none := by
  intro i j hij hi
  cases hcase : ((sortByHandicap players).get j).handicap with
  | none => rfl
  | some r =>
    have hsorted : List.Pairwise handLe (sortByHandicap players) :=
      sortByHandicap_sorted players
    have hle : handLe ((sortByHandicap players).get i)
        ((sortByHandicap players).get j) :=
      List.pairwise_iff_get.mp hsorted i j hij
    have hki : handicapKey ((sortByHandicap players).get i) = 999 := by
      simp only [handicapKey]
      rw [hi]
      rfl
    have hkj : handicapKey ((sortByHandicap players).get j) = r := by
      simp only [handicapKey]
      rw [hcase]
      rfl
    have hmem : (sortByHandicap players).get j ∈ players :=
      (sortByHandicap_perm players).mem_iff.mp (List.get_mem _ _ j.2)
    have hlt := hsmall _ hmem r hcase
    rw [handLe, hki, hkj] at hle
    omega

/-- Witness for C4's amended statement on `sampleRoster` (ratings 3 and 7,
one unrated). -/
theorem C4_unrated_last_below_sentinel_witness :
    (∀ p ∈ sampleRoster, ∀ r : Int, p.handicap = some r → r < 999)
    ∧ (∀ i j : Fin (sortByHandicap sampleRoster).length, i < j →
        ((sortByHandicap sampleRoster).get i).handicap = none →
        ((sortByHandicap sampleRoster).get j).handicap = none) :=
  ⟨by decide, C4_unrated_last_below_sentinel sampleRoster (by decide)⟩

/-- C5: the gender-stratified strategy creates
`max(1, ceil(N / groupSize))` groups and assigns each bucket round-robin
from cursor 0, males first, then females, then unspecified: the `k`-th
member of each shuffled bucket lands in group `k mod groupCount`. -/
theorem C5_gender_round_robin (sh : List Player → List Player)
    (players : List Player) (teamSize : Nat) (hts : 1 ≤ teamSize) :
    (makeRandomTeamsWithGender sh players teamSize).length
      = max 1 (ceilDiv players.length teamSize)
    ∧ (∀ k p, (sh (players.filter fun q => decide (q.gender = Gender.M)))[k]? = some p →
        p ∈ (makeRandomTeamsWithGender sh players teamSize).getD
          (k % max 1 (ceilDiv players.length teamSize)) [])
    ∧ (∀ k p, (sh (players.filter fun q => decide (q.gender = Gender.F)))[k]? = some p →
        p ∈ (makeRandomTeamsWithGender sh players teamSize).getD
          (k % max 1 (ceilDiv players.length teamSize)) [])
    ∧ (∀ k p, (sh (players.filter fun q => decide (q.gender = Gender.N)))[k]? = some p →
        p ∈ (makeRandomTeamsWithGender sh players teamSize).getD
          (k % max 1 (ceilDiv players.length teamSize)) []) := by
  set males := sh (players.filter fun q => decide (q.gender = Gender.M)) with hm
  set females := sh (players.filter fun q => decide (q.gender = Gender.F)) with hf
  set neutral := sh (players.filter fun q => decide (q.gender = Gender.N)) with hn
  set c := ceilDiv players.length teamSize with hc
  set n := if c = 0 then 1 else c with hdefn
  have hmax : n = max 1 c := ite_zero_one_eq_max c
  have hpos : 0 < n := by rw [hdefn]; split <;> omega
  set t0 := List.replicate n ([] : Team) with ht0
  set t1 := assignGroup n t0 0 males with ht1
  set t2 := assignGroup n t1 0 females with ht2
  have hl0 : t0.length = n := List.length_replicate n []
  have hl1 : t1.length = n := by rw [ht1, assignGroup_length, hl0]
  have hl2 : t2.length = n := by rw [ht2, assignGroup_length, hl1]
  have hres : makeRandomTeamsWithGender sh players teamSize
      = assignGroup n t2 0 neutral := rfl
  refine ⟨?_, ?_, ?_, ?_⟩
  · rw [hres, assignGroup_length, hl2, hmax]
  · intro k p hk
    have h1 : p ∈ t1.getD ((0 + k) % n) [] :=
      assignGroup_get_mem n males t0 0 k p hl0 hpos hk
    have h2 : p ∈ t2.getD ((0 + k) % n) [] :=
      assignGroup_getD_mono n females t1 0 _ p hl1 hpos h1
    have h3 : p ∈ (assignGroup n t2 0 neutral).getD ((0 + k) % n) [] :=
      assignGroup_getD_mono n neutral t2 0 _ p hl2 hpos h2
    rw [hres]
    simpa [hmax] using h3
  · intro k p hk
    have h2 : p ∈ t2.getD ((0 + k) % n) [] :=
      assignGroup_get_mem n females t1 0 k p hl1 hpos hk
    have h3 : p ∈ (assignGroup n t2 0 neutral).getD ((0 + k) % n) [] :=
      assignGroup_getD_mono n neutral t2 0 _ p hl2 hpos h2
    rw [hres]
    simpa [hmax] using h3
  · intro k p hk
    have h3 : p ∈ (assignGroup n t2 0 neutral).getD ((0 + k) % n) [] :=
      assignGroup_get_mem n neutral t2 0 k p hl2 hpos hk
    rw [hres]
    simpa [hmax] using h3

/-- Witness for C5 on `sampleRoster` (one player per bucket) at
`groupSize = 2`, including a concrete placement of the male bucket's first
member into group `0 mod 2`. -/
theorem C5_gender_round_robin_witness :
    (1 ≤ 2)
    ∧ (makeRandomTeamsWithGender id sampleRoster 2).length
        = max 1 (ceilDiv sampleRoster.length 2)
    ∧ (⟨1, "가", some 3, Gender.M⟩ : Player) ∈
        (makeRandomTeamsWithGender id sampleRoster 2).getD
          (0 % max 1 (ceilDiv sampleRoster.length 2)) [] :=
  ⟨by decide,
   (C5_gender_round_robin id sampleRoster 2 (by decide)).1,
   (C5_gender_round_robin id sampleRoster 2 (by decide)).2.1 0
     ⟨1, "가", some 3, Gender.M⟩ (by decide)⟩

/-- C6 counterexample: on the empty roster the gender-stratified strategy
does not return an empty partition: the `|| 1` forces one group, so it
returns a partition with a single empty group. -/
theorem C6_empty_partition_cex :
    makeRandomTeamsWithGender id ([] : List Player) 2 = [[]]
    ∧ makeRandomTeamsWithGender id ([] : List Player) 2 ≠ ([] : List Team) := by
  constructor
  · decide
  · decide

/-- C6 amended: partitioning the empty roster is never an error; the
uniform-random and the un-defaulted balanced strategy return zero groups,
while the two `|| 1` variants (gender-stratified, gendered balanced)
return exactly one empty group. -/
theorem C6_empty_roster_partitions (sh : List Player → List Player)
    (hsh : ∀ l, (sh l).Perm l) (teamSize : Nat) :
    makeRandomTeams sh [] teamSize = []
    ∧ makeBalancedTeams [] teamSize = []
    ∧ makeRandomTeamsWithGender sh [] teamSize = [[]]
    ∧ makeBalancedTeamsG [] teamSize = [[]] := by
  have hnil : sh [] = [] := (hsh []).eq_nil
  refine ⟨?_, ?_, ?_, ?_⟩
  · show chunkGo teamSize (sh []).length (sh []) = []
    rw [hnil]
    rfl
  · show makeBalancedTeamsCore [] (ceilDiv 0 teamSize) = []
    rw [ceilDiv_zero_left]
    rfl
  · simp [makeRandomTeamsWithGender, hnil, ceilDiv_zero_left, assignGroup]
  · simp [makeBalancedTeamsG, makeBalancedTeamsCore, ceilDiv_zero_left,
      sortByHandicap, List.insertionSort, snakeGo]

/-- Witness for C6's amended statement at the identity shuffle and
`groupSize = 2`. -/
theorem C6_empty_roster_partitions_witness :
    makeRandomTeams id [] 2 = []
    ∧ makeBalancedTeams [] 2 = []
    ∧ makeRandomTeamsWithGender id [] 2 = [[]]
    ∧ makeBalancedTeamsG [] 2 = [[]] :=
  C6_empty_roster_partitions id (fun l => List.Perm.refl l) 2

/-- The group of the spec's average example: ratings 10, 20 and one
missing. -/
def ratedTeamEx : Team :=
  [⟨1, "가", some 10, Gender.M⟩, ⟨2, "나", some 20, Gender.M⟩, ⟨3, "다", none, Gender.M⟩]

/-- C7: `calcAverageHandicap` returns the `null` sentinel exactly when no
group member has a rating; otherwise it returns the exact arithmetic mean
of the present ratings (no rounding), and on ratings `[10, 20, missing]`
it returns `15`. -/
theorem C7_average_rating_spec :
    (∀ t : Team, calcAverageHandicap t = none ↔ ∀ p ∈ t, p.handicap = none)
    ∧ (∀ t : Team, (∃ p ∈ t, p.handicap ≠ none) →
        calcAverageHandicap t
          = some (((t.filterMap Player.handicap).sum : ℚ)
              / ((t.filterMap Player.handicap).length : ℚ)))
    ∧ calcAverageHandicap ratedTeamEx = some 15 := by
  refine ⟨?_, ?_, ?_⟩
  · intro t
    by_cases h : t.filterMap Player.handicap = []
    · simp only [calcAverageHandicap, if_pos h, true_iff]
      exact List.filterMap_eq_nil_iff.mp h
    · simp only [calcAverageHandicap, if_neg h]
      constructor
      · intro hcon
        simp at hcon
      · intro hall
        exact absurd (List.filterMap_eq_nil_iff.mpr hall) h
  · intro t ht
    obtain ⟨p, hp, hpne⟩ := ht
    have h : t.filterMap Player.handicap ≠ [] := by
      intro hcon
      exact hpne (List.filterMap_eq_nil_iff.mp hcon p hp)
    simp only [calcAverageHandicap, if_neg h]
  · simp only [calcAverageHandicap]
    rw [show ratedTeamEx.filterMap Player.handicap = [10, 20] from rfl,
      if_neg (by decide)]
    norm_num

/-- Witness for C7's mean clause at the example group. -/
theorem C7_average_rating_spec_witness :
    (∃ p ∈ ratedTeamEx, p.handicap ≠ none)
    ∧ calcAverageHandicap ratedTeamEx
        = some (((ratedTeamEx.filterMap Player.handicap).sum : ℚ)
            / ((ratedTeamEx.filterMap Player.handicap).length : ℚ)) :=
  ⟨by decide, C7_average_rating_spec.2.1 ratedTeamEx (by decide)⟩

theorem generateTeamNames_getD_eq (sh : List String → List String)
    (count i : Nat) (hi : i < count) :
    (generateTeamNames sh count).getD i ""
      = (if (sh TEAM_NAME_PRESETS).getD i "" = "" then fallbackName i
         else (sh TEAM_NAME_PRESETS).getD i "") := by
  unfold generateTeamNames
  rw [List.getD_eq_getElem?_getD, List.getElem?_map, List.getElem?_range hi]
  rfl

/-- C8: `generateTeamNames(count)` always returns exactly `count` labels:
positions below the pool size 10 get distinct shuffled pool names, every
later position gets the deterministic 1-based fallback label, and nothing
throws; at `count = 12` the result is 10 distinct pool names followed by
the fallback labels for positions 11 and 12. -/
theorem C8_team_names_spec (sh : List String → List String)
    (hsh : (sh TEAM_NAME_PRESETS).Perm TEAM_NAME_PRESETS) (count : Nat) :
    (generateTeamNames sh count).length = count
    ∧ (∀ i, i < count → 10 ≤ i →
        (generateTeamNames sh count).getD i "" = fallbackName i)
    ∧ (∀ i, i < count → i < 10 →
        (generateTeamNames sh count).getD i "" ∈ TEAM_NAME_PRESETS)
    ∧ (∀ i j, i < j → j < count → j < 10 →
        (generateTeamNames sh count).getD i ""
          ≠ (generateTeamNames sh count).getD j "")
    ∧ generateTeamNames id 12
        = TEAM_NAME_PRESETS ++ [fallbackName 10, fallbackName 11] := by
  have hlen10 : (sh TEAM_NAME_PRESETS).length = 10 := by
    rw [hsh.length_eq]
    rfl
  have hnestr : ∀ s ∈ TEAM_NAME_PRESETS, s ≠ "" := by decide
  have hnd : (sh TEAM_NAME_PRESETS).Nodup := hsh.nodup_iff.mpr (by decide)
  refine ⟨?_, ?_, ?_, ?_, ?_⟩
  · simp [generateTeamNames]
  · intro i hic hi10
    rw [generateTeamNames_getD_eq sh count i hic]
    have hvac : (sh TEAM_NAME_PRESETS).getD i "" = "" := by
      rw [List.getD_eq_getElem?_getD, List.getElem?_eq_none (by omega)]
      rfl
    rw [hvac, if_pos rfl]
  · intro i hic hi10
    have hilen : i < (sh TEAM_NAME_PRESETS).length := by omega
    have hmem : (sh TEAM_NAME_PRESETS)[i] ∈ TEAM_NAME_PRESETS :=
      hsh.mem_iff.mp (List.getElem_mem hilen)
    rw [generateTeamNames_getD_eq sh count i hic, List.getD_eq_getElem _ _ hilen,
      if_neg (hnestr _ hmem)]
    exact hmem
  · intro i j hij hjc hj10
    have hic : i < count := lt_trans hij hjc
    have hilen : i < (sh TEAM_NAME_PRESETS).length := by omega
    have hjlen : j < (sh TEAM_NAME_PRESETS).length := by omega
    have hmi : (sh TEAM_NAME_PRESETS)[i] ∈ TEAM_NAME_PRESETS :=
      hsh.mem_iff.mp (List.getElem_mem hilen)
    have hmj : (sh TEAM_NAME_PRESETS)[j] ∈ TEAM_NAME_PRESETS :=
      hsh.mem_iff.mp (List.getElem_mem hjlen)
    rw [generateTeamNames_getD_eq sh count i hic, generateTeamNames_getD_eq sh count j hjc,
      List.getD_eq_getElem _ _ hilen, List.getD_eq_getElem _ _ hjlen,
      if_neg (hnestr _ hmi), if_neg (hnestr _ hmj)]
    exact List.pairwise_iff_get.mp hnd ⟨i, hilen⟩ ⟨j, hjlen⟩ hij
  · decide

/-- Witness for C8 at the identity shuffle and `count = 12`. -/
theorem C8_team_names_spec_witness :
    (generateTeamNames id 12).length = 12
    ∧ generateTeamNames id 12 = TEAM_NAME_PRESETS ++ [fallbackName 10, fallbackName 11] :=
  ⟨(C8_team_names_spec id (List.Perm.refl _) 12).1,
   (C8_team_names_spec id (List.Perm.refl _) 12).2.2.2.2⟩

/-- C9: the balancing sort is stable: for every rating value (including
the missing rating), the participants carrying exactly that rating appear
in the output in their relative input order, so the result is
deterministic for a fixed input order. -/
theorem C9_sort_stable (players : List Player) (h₀ : Option Int) :
    (sortByHandicap players).filter (fun p => decide (p.handicap = h₀))
      = players.filter (fun p => decide (p.handicap = h₀)) := by
  have hpt : ∀ x : Player, (decide (x.handicap = h₀))
      = (decide (x.handicap = h₀) && decide (handicapKey x = h₀.getD 999)) := by
    intro x
    by_cases hx : x.handicap = h₀
    · simp [hx, handicapKey]
    · simp [hx]
  have hkey := sortByHandicap_filter_key (h₀.getD 999) players
  rw [List.filter_congr (fun x _ => hpt x), ← List.filter_filter, hkey,
    List.filter_filter, ← List.filter_congr (fun x _ => hpt x)]

/-- C10 counterexample: the sequence add, remove 1, add assigns id 1
twice — after the sole participant (id 1) is removed, the next `addPlayer`
reuses id 1, refuting "an id is never reused after removal". -/
theorem C10_id_reuse_cex :
    assignedIds [] [RosterOp.add "가" none Gender.M, RosterOp.remove 1,
        RosterOp.add "나" none Gender.M] = [1, 1]
    ∧ ¬ (assignedIds [] [RosterOp.add "가" none Gender.M, RosterOp.remove 1,
        RosterOp.add "나" none Gender.M]).Nodup := by
  constructor
  · decide
  · decide

/-- C10 amended: along every add/remove sequence from the empty roster the
ids in the roster stay strictly increasing front to back — so ids are
unique within the roster at every moment — but an id may be handed out
again once its holder and all later-added participants are removed. -/
theorem C10_roster_ids_increasing (ops : List RosterOp) :
    List.Pairwise (fun a b => a.id < b.id) (runOps ops) :=
  runOps_pairwise_id_lt ops

end Bungolsa
